import Mathlib

/-!
Shallow embedding of the claim-derivation and claim-archival subsystem of
the web3-storage/content-claims repository.

The embedding covers:
* the unsigned-varint length arithmetic used by the derived-claim resolver
  (`packages/lambda/src/lib/store/block-index.js`);
* the location-selection policy, offset correction and claim construction
  of `BlockIndexClaimFetcher`;
* the signed claim builder `buildClaim`;
* the client-side `decode`, `claimType` and `read` operations
  (`packages/core/src/client/index.js`).

External collaborators that are out of scope for the repository (the
ucanto archive/extract primitives, the multiformats hash and CID codecs,
the cardex index writer) are modelled from the specification as concrete
executable functions; each such definition is marked `Modelled from the
spec:` in its doc comment.  Everything else is translated directly from
the JavaScript source.
-/

namespace ContentClaims

/-! ## JavaScript string primitives

The source splits storage paths with `String.prototype.split` (always with
a single-character separator) and tests prefixes with
`String.prototype.startsWith`.  We model both at the `List Char` level so
that they compute in the kernel. -/

/-- Model of `String.prototype.split` restricted to a single-character
separator, at the `List Char` level: `"a/b/c"` splits into
`["a", "b", "c"]`, the empty string into `[""]`. -/
def splitChar (sep : Char) : List Char → List (List Char)
  | [] => [[]]
  | c :: cs =>
    if c = sep then [] :: splitChar sep cs
    else
      match splitChar sep cs with
      | [] => [[c]]
      | g :: gs => (c :: g) :: gs

/-- Model of `String.prototype.split` with a single-character separator. -/
def jsSplit (sep : Char) (s : String) : List String :=
  (splitChar sep s.data).map String.mk

/-- Model of `String.prototype.startsWith`. -/
def jsStartsWith (s pre : String) : Bool :=
  pre.data.isPrefixOf s.data

/-- Model of `Array.prototype.join` on strings (used to re-join the key
segments of a storage path after splitting off region and bucket). -/
def jsJoin (sep : String) : List String → String
  | [] => ""
  | p :: rest => rest.foldl (fun acc q => acc ++ sep ++ q) p

/-! ## Unsigned varint

`block-index.js` imports the npm `varint` package and uses
`varint.encodingLength(n)`, the byte length of the unsigned LEB128
encoding of `n`.  We define the encoding itself (7-bit groups, little
endian, high bit set on every byte but the last) and take its length. -/

/-- Fuel-indexed LEB128 encoder; `fuel` bounds the recursion depth and is
always called with `fuel > n`. -/
def varintEncodeAux : Nat → Nat → List Nat
  | 0, _ => []
  | fuel + 1, n =>
    if n < 128 then [n]
    else (n % 128 + 128) :: varintEncodeAux fuel (n / 128)

/-- Unsigned LEB128 (multiformats unsigned-varint) encoding of `n`. -/
def varintEncode (n : Nat) : List Nat :=
  varintEncodeAux (n + 1) n

/-- `varint.encodingLength` from the npm `varint` package: the byte length
of the unsigned-varint encoding. -/
def encodingLength (n : Nat) : Nat :=
  (varintEncode n).length

theorem varintEncodeAux_small (fuel n : Nat) (hf : 0 < fuel) (h : n < 128) :
    varintEncodeAux fuel n = [n] := by
  cases fuel with
  | zero => omega
  | succ m => simp [varintEncodeAux, h]

theorem encodingLength_one (n : Nat) (h : n < 128) : encodingLength n = 1 := by
  simp [encodingLength, varintEncode, varintEncodeAux_small _ _ (Nat.succ_pos n) h]

theorem encodingLength_two (n : Nat) (h1 : 128 ≤ n) (h2 : n < 16384) :
    encodingLength n = 2 := by
  unfold encodingLength varintEncode
  obtain ⟨m, rfl⟩ : ∃ m, n = m + 1 := ⟨n - 1, by omega⟩
  rw [show varintEncodeAux (m + 1 + 1) (m + 1)
      = (if m + 1 < 128 then [m + 1]
         else ((m + 1) % 128 + 128) :: varintEncodeAux (m + 1) ((m + 1) / 128)) from rfl]
  rw [if_neg (by omega)]
  rw [varintEncodeAux_small _ _ (by omega) (by omega)]
  rfl

/-! ## Content identifiers -/

/-- A multihash digest, as carried by a multiformats CID.  `bytes` is the
full multihash byte string (the primary lookup key of the system). -/
structure Multihash where
  bytes : List Nat
deriving DecidableEq, Repr

/-- A content identifier: codec code plus multihash digest (version-1
multiformats CID). -/
structure Cid where
  code : Nat
  multihash : Multihash
deriving DecidableEq, Repr

/-- Modelled from the spec: the binary representation of a version-1 CID
(`cid.bytes` in multiformats) — version varint, codec varint, multihash
bytes.  Only its length enters the resolver's offset arithmetic. -/
def cidBytes (c : Cid) : List Nat :=
  varintEncode 1 ++ varintEncode c.code ++ c.multihash.bytes

/-- Modelled from the spec: the sha256 content digest used for content
addressing.  The specification only requires a content-derived,
collision-free digest, so the model uses the (injective) identity on the
byte string. -/
def sha256model (bytes : List Nat) : List Nat :=
  bytes

/-- `CAR_CODE` from `block-index.js`: the multiformats codec code of a
content-addressed archive. -/
def CAR_CODE : Nat := 0x0202

/-- `MultihashIndexSortedWriter.codec` from cardex: the codec code of the
multihash-index-sorted format referenced by derived relation claims. -/
def INDEX_CODEC : Nat := 0x0401

/-! ## Capability payloads

The named parameters (`nb`) of a capability are a JavaScript object; the
values that flow through the five claim kinds are links, strings, numbers,
lists of links or strings, byte ranges, and relation-part descriptors.  We
model `nb` as an association list from field name to such a value. -/

/-- `RelationPartInclusion` from `client/api.ts`: the index included in a
relation part, possibly localized to further parts. -/
structure RelInc where
  content : Cid
  parts : Option (List Cid)
deriving DecidableEq, Repr

/-- `RelationPart` from `client/api.ts`: a containing archive and an
optional inclusion index. -/
structure RelPart where
  content : Cid
  includes : Option RelInc
deriving DecidableEq, Repr

/-- A value of a capability's named-parameter object. -/
inductive Val where
  | vlink (c : Cid)
  | vstr (s : String)
  | vnum (n : Nat)
  | vlinks (cs : List Cid)
  | vstrs (ss : List String)
  | vrange (offset : Nat) (length : Option Nat)
  | vparts (ps : List RelPart)
deriving DecidableEq, Repr

/-- A capability: discriminator string (`can`), resource (`with`) and
named parameters (`nb`). -/
structure Cap where
  can : String
  withField : String
  nb : List (String × Val)
deriving DecidableEq, Repr

/-- A capability invocation as built by the resolver and the tests:
self-issued, with a single capability, an optional expiration, and any
blocks attached before archival (`invocation.attach`). -/
structure Invocation where
  issuer : String
  audience : String
  cap : Cap
  expiration : Option Nat
  attached : List (Cid × List Nat)
deriving DecidableEq, Repr

/-! ## Archival

Modelled from the spec: the ucanto archive/extract primitives are out of
scope for the repository and specified only at their interface — a
lossless serialization of an invocation (plus attached blocks) into a
transferable byte sequence, from which the capability is independently
re-derivable.  We realize the interface with a concrete length-prefixed
serializer and prove the round-trip below. -/

/-- Length-prefixed encoding of a string: character count followed by the
character code points. -/
def encStr (s : String) : List Nat :=
  s.length :: s.data.map Char.toNat

/-- Encoding of a CID: codec code, digest length, digest bytes. -/
def encCid (c : Cid) : List Nat :=
  c.code :: c.multihash.bytes.length :: c.multihash.bytes

/-- Encoding of an optional number. -/
def encOptNat : Option Nat → List Nat
  | none => [0]
  | some n => [1, n]

/-- Count-prefixed encoding of a list of CIDs. -/
def encCids (cs : List Cid) : List Nat :=
  cs.length :: (cs.map encCid).flatten

/-- Count-prefixed encoding of a list of strings. -/
def encStrs (ss : List String) : List Nat :=
  ss.length :: (ss.map encStr).flatten

/-- Encoding of an optional list of CIDs. -/
def encOptCids : Option (List Cid) → List Nat
  | none => [0]
  | some cs => 1 :: encCids cs

/-- Encoding of a relation-part inclusion. -/
def encInc (i : RelInc) : List Nat :=
  encCid i.content ++ encOptCids i.parts

/-- Encoding of an optional relation-part inclusion. -/
def encOptInc : Option RelInc → List Nat
  | none => [0]
  | some i => 1 :: encInc i

/-- Encoding of a relation part. -/
def encPart (p : RelPart) : List Nat :=
  encCid p.content ++ encOptInc p.includes

/-- Count-prefixed encoding of a list of relation parts. -/
def encParts (ps : List RelPart) : List Nat :=
  ps.length :: (ps.map encPart).flatten

/-- Tagged encoding of a named-parameter value. -/
def encVal : Val → List Nat
  | .vlink c => 0 :: encCid c
  | .vstr s => 1 :: encStr s
  | .vnum n => [2, n]
  | .vlinks cs => 3 :: encCids cs
  | .vstrs ss => 4 :: encStrs ss
  | .vrange o l => 5 :: o :: encOptNat l
  | .vparts ps => 6 :: encParts ps

/-- Encoding of one named-parameter field. -/
def encField (f : String × Val) : List Nat :=
  encStr f.1 ++ encVal f.2

/-- Count-prefixed encoding of the named-parameter object. -/
def encFields (fs : List (String × Val)) : List Nat :=
  fs.length :: (fs.map encField).flatten

/-- Encoding of a capability. -/
def encCap (cap : Cap) : List Nat :=
  encStr cap.can ++ encStr cap.withField ++ encFields cap.nb

/-- Encoding of one attached block: CID then length-prefixed bytes. -/
def encBlock (b : Cid × List Nat) : List Nat :=
  encCid b.1 ++ b.2.length :: b.2

/-- Count-prefixed encoding of the attached blocks. -/
def encBlocks (bs : List (Cid × List Nat)) : List Nat :=
  bs.length :: (bs.map encBlock).flatten

/-- Modelled from the spec: the root block of the archived invocation
(issuer, audience, capability, expiration). -/
def encInvocation (inv : Invocation) : List Nat :=
  encStr inv.issuer ++ encStr inv.audience ++ encCap inv.cap ++ encOptNat inv.expiration

/-- Modelled from the spec: `ipldView.archive()` — the self-contained
transferable byte sequence holding the invocation and its attached
blocks. -/
def encArchive (inv : Invocation) : List Nat :=
  encInvocation inv ++ encBlocks inv.attached

/-! ## Extraction

The inverse of the serializer: a chain of parsers, each returning the
parsed value and the remaining input. -/

/-- Split off the first `n` elements, failing when fewer remain. -/
def splitN : Nat → List Nat → Option (List Nat × List Nat)
  | 0, xs => some ([], xs)
  | _ + 1, [] => none
  | n + 1, x :: xs => (splitN n xs).map fun p => (x :: p.1, p.2)

/-- Parse one number. -/
def decNat : List Nat → Option (Nat × List Nat)
  | [] => none
  | n :: r => some (n, r)

/-- Parse a length-prefixed string. -/
def decStr (input : List Nat) : Option (String × List Nat) :=
  (decNat input).bind fun (n, r) =>
    (splitN n r).map fun (a, b) => (String.mk (a.map Char.ofNat), b)

/-- Parse a CID. -/
def decCid (input : List Nat) : Option (Cid × List Nat) :=
  (decNat input).bind fun (code, r1) =>
    (decNat r1).bind fun (n, r2) =>
      (splitN n r2).map fun (d, r3) => (⟨code, ⟨d⟩⟩, r3)

/-- Parse an optional number. -/
def decOptNat (input : List Nat) : Option (Option Nat × List Nat) :=
  match input with
  | 0 :: r => some (none, r)
  | 1 :: n :: r => some (some n, r)
  | _ => none

/-- Parse `count` CIDs. -/
def decCidsAux : Nat → List Nat → Option (List Cid × List Nat)
  | 0, r => some ([], r)
  | k + 1, r =>
    (decCid r).bind fun (c, r1) =>
      (decCidsAux k r1).map fun (cs, r2) => (c :: cs, r2)

/-- Parse a count-prefixed list of CIDs. -/
def decCids (input : List Nat) : Option (List Cid × List Nat) :=
  (decNat input).bind fun (k, r) => decCidsAux k r

/-- Parse `count` strings. -/
def decStrsAux : Nat → List Nat → Option (List String × List Nat)
  | 0, r => some ([], r)
  | k + 1, r =>
    (decStr r).bind fun (s, r1) =>
      (decStrsAux k r1).map fun (ss, r2) => (s :: ss, r2)

/-- Parse a count-prefixed list of strings. -/
def decStrs (input : List Nat) : Option (List String × List Nat) :=
  (decNat input).bind fun (k, r) => decStrsAux k r

/-- Parse an optional list of CIDs. -/
def decOptCids (input : List Nat) : Option (Option (List Cid) × List Nat) :=
  match input with
  | 0 :: r => some (none, r)
  | 1 :: r => (decCids r).map fun (cs, r1) => (some cs, r1)
  | _ => none

/-- Parse a relation-part inclusion. -/
def decInc (input : List Nat) : Option (RelInc × List Nat) :=
  (decCid input).bind fun (c, r1) =>
    (decOptCids r1).map fun (ps, r2) => (⟨c, ps⟩, r2)

/-- Parse an optional relation-part inclusion. -/
def decOptInc (input : List Nat) : Option (Option RelInc × List Nat) :=
  match input with
  | 0 :: r => some (none, r)
  | 1 :: r => (decInc r).map fun (i, r1) => (some i, r1)
  | _ => none

/-- Parse a relation part. -/
def decPart (input : List Nat) : Option (RelPart × List Nat) :=
  (decCid input).bind fun (c, r1) =>
    (decOptInc r1).map fun (i, r2) => (⟨c, i⟩, r2)

/-- Parse `count` relation parts. -/
def decPartsAux : Nat → List Nat → Option (List RelPart × List Nat)
  | 0, r => some ([], r)
  | k + 1, r =>
    (decPart r).bind fun (p, r1) =>
      (decPartsAux k r1).map fun (ps, r2) => (p :: ps, r2)

/-- Parse a count-prefixed list of relation parts. -/
def decParts (input : List Nat) : Option (List RelPart × List Nat) :=
  (decNat input).bind fun (k, r) => decPartsAux k r

/-- Parse a tagged named-parameter value. -/
def decVal : List Nat → Option (Val × List Nat)
  | 0 :: r => (decCid r).map fun (c, r1) => (Val.vlink c, r1)
  | 1 :: r => (decStr r).map fun (s, r1) => (Val.vstr s, r1)
  | 2 :: n :: r => some (Val.vnum n, r)
  | 3 :: r => (decCids r).map fun (cs, r1) => (Val.vlinks cs, r1)
  | 4 :: r => (decStrs r).map fun (ss, r1) => (Val.vstrs ss, r1)
  | 5 :: o :: r => (decOptNat r).map fun (l, r1) => (Val.vrange o l, r1)
  | 6 :: r => (decParts r).map fun (ps, r1) => (Val.vparts ps, r1)
  | _ => none

/-- Parse `count` named-parameter fields. -/
def decFieldsAux : Nat → List Nat → Option (List (String × Val) × List Nat)
  | 0, r => some ([], r)
  | k + 1, r =>
    (decStr r).bind fun (key, r1) =>
      (decVal r1).bind fun (v, r2) =>
        (decFieldsAux k r2).map fun (fs, r3) => ((key, v) :: fs, r3)

/-- Parse a count-prefixed named-parameter object. -/
def decFields (input : List Nat) : Option (List (String × Val) × List Nat) :=
  (decNat input).bind fun (k, r) => decFieldsAux k r

/-- Parse a capability. -/
def decCap (input : List Nat) : Option (Cap × List Nat) :=
  (decStr input).bind fun (can, r1) =>
    (decStr r1).bind fun (withField, r2) =>
      (decFields r2).map fun (nb, r3) => (⟨can, withField, nb⟩, r3)

/-- Parse one attached block. -/
def decBlock (input : List Nat) : Option ((Cid × List Nat) × List Nat) :=
  (decCid input).bind fun (c, r1) =>
    (decNat r1).bind fun (n, r2) =>
      (splitN n r2).map fun (bs, r3) => ((c, bs), r3)

/-- Parse `count` attached blocks. -/
def decBlocksAux : Nat → List Nat → Option (List (Cid × List Nat) × List Nat)
  | 0, r => some ([], r)
  | k + 1, r =>
    (decBlock r).bind fun (b, r1) =>
      (decBlocksAux k r1).map fun (bs, r2) => (b :: bs, r2)

/-- Parse a count-prefixed list of attached blocks. -/
def decBlocks (input : List Nat) : Option (List (Cid × List Nat) × List Nat) :=
  (decNat input).bind fun (k, r) => decBlocksAux k r

/-- Parse the root block of an archived invocation. -/
def decInvocation (input : List Nat) : Option (Invocation × List Nat) :=
  (decStr input).bind fun (issuer, r1) =>
    (decStr r1).bind fun (audience, r2) =>
      (decCap r2).bind fun (cap, r3) =>
        (decOptNat r3).bind fun (exp, r4) =>
          (decBlocks r4).map fun (bs, r5) => (⟨issuer, audience, cap, exp, bs⟩, r5)

/-- Modelled from the spec: `Delegation.extract` — recover the archived
invocation from the byte sequence, failing on any malformed input. -/
def extractArchive (bytes : List Nat) : Except String Invocation :=
  match decInvocation bytes with
  | some (inv, []) => .ok inv
  | _ => .error "malformed archive"

/-! ## Round-trip of the archival model -/

theorem splitN_append (xs r : List Nat) : splitN xs.length (xs ++ r) = some (xs, r) := by
  induction xs with
  | nil => rfl
  | cons x xs ih => simp [splitN, ih]

theorem char_map_roundtrip (l : List Char) :
    (l.map Char.toNat).map Char.ofNat = l := by
  induction l with
  | nil => rfl
  | cons c cs ih => simp [ih, Char.ofNat_toNat]

theorem decStr_enc (s : String) (r : List Nat) : decStr (encStr s ++ r) = some (s, r) := by
  have h : splitN s.length (s.data.map Char.toNat ++ r) = some (s.data.map Char.toNat, r) := by
    have h0 := splitN_append (s.data.map Char.toNat) r
    rw [List.length_map] at h0
    exact h0
  have hc : s.data.map (Char.ofNat ∘ Char.toNat) = s.data := by
    rw [← List.map_map]
    exact char_map_roundtrip s.data
  show decStr (s.length :: (s.data.map Char.toNat ++ r)) = some (s, r)
  simp [decStr, decNat, h, char_map_roundtrip, hc]

theorem decCid_enc (c : Cid) (r : List Nat) : decCid (encCid c ++ r) = some (c, r) := by
  show decCid (c.code :: c.multihash.bytes.length :: (c.multihash.bytes ++ r)) = some (c, r)
  simp [decCid, decNat, splitN_append]

theorem decOptNat_enc (o : Option Nat) (r : List Nat) :
    decOptNat (encOptNat o ++ r) = some (o, r) := by
  cases o <;> rfl

theorem decCidsAux_enc (cs : List Cid) (r : List Nat) :
    decCidsAux cs.length ((cs.map encCid).flatten ++ r) = some (cs, r) := by
  induction cs generalizing r with
  | nil => rfl
  | cons c cs ih => simp [decCidsAux, List.append_assoc, decCid_enc, ih]

theorem decCids_enc (cs : List Cid) (r : List Nat) :
    decCids (encCids cs ++ r) = some (cs, r) := by
  show decCids (cs.length :: ((cs.map encCid).flatten ++ r)) = some (cs, r)
  simp [decCids, decNat, decCidsAux_enc]

theorem decStrsAux_enc (ss : List String) (r : List Nat) :
    decStrsAux ss.length ((ss.map encStr).flatten ++ r) = some (ss, r) := by
  induction ss generalizing r with
  | nil => rfl
  | cons s ss ih => simp [decStrsAux, List.append_assoc, decStr_enc, ih]

theorem decStrs_enc (ss : List String) (r : List Nat) :
    decStrs (encStrs ss ++ r) = some (ss, r) := by
  show decStrs (ss.length :: ((ss.map encStr).flatten ++ r)) = some (ss, r)
  simp [decStrs, decNat, decStrsAux_enc]

theorem decOptCids_enc (o : Option (List Cid)) (r : List Nat) :
    decOptCids (encOptCids o ++ r) = some (o, r) := by
  cases o with
  | none => rfl
  | some cs =>
    show decOptCids (1 :: (encCids cs ++ r)) = some (some cs, r)
    simp [decOptCids, decCids_enc]

theorem decInc_enc (i : RelInc) (r : List Nat) : decInc (encInc i ++ r) = some (i, r) := by
  simp [encInc, decInc, List.append_assoc, decCid_enc, decOptCids_enc]

theorem decOptInc_enc (o : Option RelInc) (r : List Nat) :
    decOptInc (encOptInc o ++ r) = some (o, r) := by
  cases o with
  | none => rfl
  | some i =>
    show decOptInc (1 :: (encInc i ++ r)) = some (some i, r)
    simp [decOptInc, decInc_enc]

theorem decPart_enc (p : RelPart) (r : List Nat) : decPart (encPart p ++ r) = some (p, r) := by
  simp [encPart, decPart, List.append_assoc, decCid_enc, decOptInc_enc]

theorem decPartsAux_enc (ps : List RelPart) (r : List Nat) :
    decPartsAux ps.length ((ps.map encPart).flatten ++ r) = some (ps, r) := by
  induction ps generalizing r with
  | nil => rfl
  | cons p ps ih => simp [decPartsAux, List.append_assoc, decPart_enc, ih]

theorem decParts_enc (ps : List RelPart) (r : List Nat) :
    decParts (encParts ps ++ r) = some (ps, r) := by
  show decParts (ps.length :: ((ps.map encPart).flatten ++ r)) = some (ps, r)
  simp [decParts, decNat, decPartsAux_enc]

theorem decVal_enc (v : Val) (r : List Nat) : decVal (encVal v ++ r) = some (v, r) := by
  cases v with
  | vlink c =>
    show decVal (0 :: (encCid c ++ r)) = _
    simp [decVal, decCid_enc]
  | vstr s =>
    show decVal (1 :: (encStr s ++ r)) = _
    simp [decVal, decStr_enc]
  | vnum n => rfl
  | vlinks cs =>
    show decVal (3 :: (encCids cs ++ r)) = _
    simp [decVal, decCids_enc]
  | vstrs ss =>
    show decVal (4 :: (encStrs ss ++ r)) = _
    simp [decVal, decStrs_enc]
  | vrange o l =>
    show decVal (5 :: o :: (encOptNat l ++ r)) = _
    simp [decVal, decOptNat_enc]
  | vparts ps =>
    show decVal (6 :: (encParts ps ++ r)) = _
    simp [decVal, decParts_enc]

theorem decFieldsAux_enc (fs : List (String × Val)) (r : List Nat) :
    decFieldsAux fs.length ((fs.map encField).flatten ++ r) = some (fs, r) := by
  induction fs generalizing r with
  | nil => rfl
  | cons f fs ih =>
    simp [decFieldsAux, encField, List.append_assoc, decStr_enc, decVal_enc, ih]

theorem decFields_enc (fs : List (String × Val)) (r : List Nat) :
    decFields (encFields fs ++ r) = some (fs, r) := by
  show decFields (fs.length :: ((fs.map encField).flatten ++ r)) = some (fs, r)
  simp [decFields, decNat, decFieldsAux_enc]

theorem decCap_enc (cap : Cap) (r : List Nat) : decCap (encCap cap ++ r) = some (cap, r) := by
  simp [encCap, decCap, List.append_assoc, decStr_enc, decFields_enc]

theorem decBlock_enc (b : Cid × List Nat) (r : List Nat) :
    decBlock (encBlock b ++ r) = some (b, r) := by
  rw [encBlock, List.append_assoc, List.cons_append]
  simp [decBlock, decCid_enc, decNat, splitN_append]

theorem decBlocksAux_enc (bs : List (Cid × List Nat)) (r : List Nat) :
    decBlocksAux bs.length ((bs.map encBlock).flatten ++ r) = some (bs, r) := by
  induction bs generalizing r with
  | nil => rfl
  | cons b bs ih => simp [decBlocksAux, List.append_assoc, decBlock_enc, ih]

theorem decBlocks_enc (bs : List (Cid × List Nat)) (r : List Nat) :
    decBlocks (encBlocks bs ++ r) = some (bs, r) := by
  show decBlocks (bs.length :: ((bs.map encBlock).flatten ++ r)) = some (bs, r)
  simp [decBlocks, decNat, decBlocksAux_enc]

theorem decInvocation_enc (inv : Invocation) (r : List Nat) :
    decInvocation (encArchive inv ++ r) = some (inv, r) := by
  simp [encArchive, encInvocation, decInvocation, List.append_assoc, decStr_enc,
    decCap_enc, decOptNat_enc, decBlocks_enc]

/-- The archival interface is lossless: extraction recovers the archived
invocation. -/
theorem extractArchive_enc (inv : Invocation) :
    extractArchive (encArchive inv) = .ok inv := by
  have h := decInvocation_enc inv []
  rw [List.append_nil] at h
  simp [extractArchive, h]

/-! ## Signed claim builder

`buildClaim` from `block-index.js` (lines 139-150): build the IPLD view of
the invocation, archive it, and return the archived claim record.  In the
model the archival step is the total serializer above, so the
`ArchiveError` branch of the source (`if (!archive.ok) throw`) is never
taken. -/

/-- Modelled from the spec: the codec code of the archived invocation's
root block (dag-cbor in ucanto). -/
def ROOT_CODEC : Nat := 0x71

/-- Modelled from the spec: `ipldView.cid` — the content-derived
identifier of the archived invocation's root block. -/
def cidOfInvocation (inv : Invocation) : Cid :=
  ⟨ROOT_CODEC, ⟨sha256model (encInvocation inv)⟩⟩

/-- The archived claim record returned by the server-side store
(`Claim` in `server/api.ts`, plus the `value` field added by
`block-index.js`). -/
structure ClaimRec where
  claim : Cid
  bytes : List Nat
  content : Multihash
  expiration : Option Nat
  value : Cap
deriving DecidableEq, Repr

/-- `buildClaim` from `block-index.js`: archive the invocation and return
`claim` (the view's CID), `bytes` (the archive), `content` (the subject's
multihash), the view's expiration, and the first capability as `value`. -/
def buildClaim (content : Cid) (invocation : Invocation) : ClaimRec :=
  { claim := cidOfInvocation invocation
    bytes := encArchive invocation
    content := content.multihash
    expiration := invocation.expiration
    value := invocation.cap }

/-- The content identifier of an archive as recomputed by re-decoding its
bytes: extract the invocation and take its root CID. -/
def decodedClaimId (bytes : List Nat) : Except String Cid :=
  (extractArchive bytes).map cidOfInvocation

/-! ## Client-side decode and read (`packages/core/src/client/index.js`) -/

/-- Modelled from the spec: `Assert.location.can` (the capability
definitions of `capability/assert.js` are referenced but their
discriminator strings are fixed by the wire contract, spec section 6). -/
def locationCan : String := "assert/location"

/-- Modelled from the spec: `Assert.partition.can`. -/
def partitionCan : String := "assert/partition"

/-- Modelled from the spec: `Assert.inclusion.can`. -/
def inclusionCan : String := "assert/inclusion"

/-- Modelled from the spec: `Assert.relation.can`. -/
def relationCan : String := "assert/relation"

/-- Modelled from the spec: `Assert.equals.can`. -/
def equalsCan : String := "assert/equals"

/-- `claimType` from `client/index.js`: map a capability discriminator to
a known claim type, or `unknown`. -/
def claimType (can : String) : String :=
  if can = locationCan then locationCan
  else if can = partitionCan then partitionCan
  else if can = inclusionCan then inclusionCan
  else if can = relationCan then relationCan
  else if can = equalsCan then equalsCan
  else "unknown"

/-- The claim value returned by the client's `decode`: the capability's
named parameters spread together with the resolved `type` discriminator
(the `export`/`archive` closures carry no further data). -/
structure ClientClaim where
  type : String
  nb : List (String × Val)
deriving DecidableEq, Repr

/-- `decode` from `client/index.js`: extract the delegation (failure →
`failed to decode claim`), take its first capability, reject when the
named-parameter object has no `content` member (`invalid claim`),
otherwise return the typed claim. -/
def decodeClaim (bytes : List Nat) : Except String ClientClaim :=
  match extractArchive bytes with
  | .error _ => .error "failed to decode claim"
  | .ok delegation =>
    let cap := delegation.cap
    if (cap.nb.lookup "content").isSome then
      .ok { type := claimType cap.can, nb := cap.nb }
    else
      .error "invalid claim"

/-- A block of the response stream consumed by `read`. -/
structure BlockRec where
  cid : Cid
  bytes : List Nat
deriving DecidableEq, Repr

/-- The hash check of `read`: the block's CID multihash must equal the
sha256 digest of the block bytes. -/
def verifyBlock (b : BlockRec) : Bool :=
  b.cid.multihash.bytes == sha256model b.bytes

/-- The error message thrown by `read` on a hash mismatch (the source
interpolates the offending CID after this prefix). -/
def hashFailMsg : String := "hash verification failed"

/-- The error message raised by the CAR reader on a truncated stream. -/
def eofMsg : String := "unexpected end of data"

/-- The body of `read`'s streaming loop: process blocks in order — verify
the hash, decode, and collect the claim; stop at the first failure,
returning the claims collected so far and the error.  `endErr` is an
error raised by the CAR reader itself after delivering all blocks (for
example `unexpected end of data` on a truncated stream). -/
def readPipe : List BlockRec → Option String → List ClientClaim × Option String
  | [], endErr => ([], endErr)
  | b :: rest, endErr =>
    if verifyBlock b then
      match decodeClaim b.bytes with
      | .ok c =>
        let p := readPipe rest endErr
        (c :: p.1, p.2)
      | .error e => ([], some e)
    else ([], some hashFailMsg)

/-- `read` from `client/index.js` after the HTTP response: run the
streaming loop; on an error, tolerate `unexpected end of data` when no
claim has been produced, otherwise rethrow. -/
def readClaims (blocks : List BlockRec) (endErr : Option String) :
    Except String (List ClientClaim) :=
  match readPipe blocks endErr with
  | (cs, none) => .ok cs
  | (cs, some e) => if cs.isEmpty && e == eofMsg then .ok cs else .error e

/-! ## Derived-claim resolver (`BlockIndexClaimFetcher`) -/

/-- A normalized position-index record: `carpath` split into region,
bucket and key, plus the raw offset and length. -/
structure Item where
  region : String
  bucket : String
  key : String
  offset : Nat
  length : Nat
deriving DecidableEq, Repr

/-- Normalization of a raw position record (`block-index.js` lines
60-64): split the stored path on `/` into region, bucket and the
re-joined key.  A missing segment (JavaScript `undefined`) is modelled as
the empty string. -/
def normalizeItem (carpath : String) (offset length : Nat) : Item :=
  match jsSplit '/' carpath with
  | [] => ⟨"", "", "", offset, length⟩
  | [region] => ⟨region, "", "", offset, length⟩
  | region :: bucket :: rest => ⟨region, bucket, jsJoin "/" rest, offset, length⟩

/-- The location-selection policy (`block-index.js` lines 67-70): the
first candidate in the current production bucket; else the first
`dotstorage-prod-1` candidate with a `raw`-prefixed key; else the first
`dotstorage-prod-0` candidate with a `raw`-prefixed key; else the first
candidate. -/
def selectItem (items : List Item) : Option Item :=
  (((items.find? fun i => i.bucket == "carpark-prod-0").or
      (items.find? fun i => i.bucket == "dotstorage-prod-1" && jsStartsWith i.key "raw")).or
    (items.find? fun i => i.bucket == "dotstorage-prod-0" && jsStartsWith i.key "raw")).or
    items.head?

/-- `bucketKeyToPartCID` from `block-index.js`: take the key's filename,
strip the extension, and parse the remaining hash segment — as a CID that
must have the CAR codec, else as a legacy base32-encoded CAR multihash;
`none` when neither parses.  `parseLink` models `Link.parse(·).toV1()`
and `decodeB32Digest` models `Digest.decode(fromString(·, 'base32'))`,
both external multiformats primitives (failure → `none`). -/
def bucketKeyToPartCID (parseLink : String → Option Cid)
    (decodeB32Digest : String → Option Multihash) (key : String) : Option Cid :=
  let filename := (jsSplit '/' key).getLastD ""
  let hash := (jsSplit '.' filename).headD ""
  let b32 := (decodeB32Digest hash).map fun d => Cid.mk CAR_CODE d
  match parseLink hash with
  | some cid => if cid.code == CAR_CODE then some cid else b32
  | none => b32

/-- The expiration computed by the resolver:
`Math.ceil((Date.now() / 1000) + (60 * 60))` with `Date.now()` in
milliseconds — the ceiling of the current epoch-second time plus one
hour. -/
def expirationOf (nowMs : Nat) : Nat :=
  (nowMs + 999) / 1000 + 3600

/-- The length-prefix framing overhead correction of `buildRelationClaim`
(`block-index.js` line 113): the archive-relative offset is the raw
offset minus the varint length of (CID byte length + value length) minus
the CID byte length. -/
def relationCarOffset (content : Cid) (offset length : Nat) : Int :=
  (offset : Int) - ((encodingLength ((cidBytes content).length + length) : Int)
    + (cidBytes content).length)

/-- Sign-and-magnitude encoding of the corrected offset inside the
modelled index bytes. -/
def encInt (o : Int) : List Nat :=
  if o < 0 then [1, o.natAbs] else [0, o.natAbs]

/-- Modelled from the spec: the bytes of the single-entry
multihash-index-sorted artifact produced by `encodeIndex` (the cardex
writer is external) — the subject's multihash together with the corrected
offset. -/
def encodeIndexBytes (content : Cid) (offset : Int) : List Nat :=
  content.multihash.bytes ++ encInt offset

/-- `encodeIndex`'s returned CID: the index codec over the sha256 digest
of the index bytes. -/
def encodeIndexCid (content : Cid) (offset : Int) : Cid :=
  ⟨INDEX_CODEC, ⟨sha256model (encodeIndexBytes content offset)⟩⟩

/-- `buildLocationClaim` from `block-index.js`: a self-signed
`assert/location` invocation whose named parameters carry the subject,
the location URL list and the byte range. -/
def buildLocationClaim (signer : String) (content : Cid) (location : List String)
    (offset length : Nat) (expiration : Option Nat) : ClaimRec :=
  buildClaim content
    { issuer := signer
      audience := signer
      cap :=
        { can := locationCan
          withField := signer
          nb := [("content", .vlink content),
                 ("location", .vstrs location),
                 ("range", .vrange offset (some length))] }
      expiration := expiration
      attached := [] }

/-- `buildRelationClaim` from `block-index.js`: correct the offset, build
the single-entry index, and emit a self-signed `assert/relation`
invocation with no children and exactly one part (the containing archive
with the index as its inclusion), attaching the index block. -/
def buildRelationClaim (signer : String) (content part : Cid)
    (offset length : Nat) (expiration : Option Nat) : ClaimRec :=
  let carOffset := relationCarOffset content offset length
  let indexCid := encodeIndexCid content carOffset
  let indexBytes := encodeIndexBytes content carOffset
  buildClaim content
    { issuer := signer
      audience := signer
      cap :=
        { can := relationCan
          withField := signer
          nb := [("content", .vlink content),
                 ("children", .vlinks []),
                 ("parts", .vparts [⟨part, some ⟨indexCid, none⟩⟩])] }
      expiration := expiration
      attached := [(indexCid, indexBytes)] }

/-- `BlockIndexClaimFetcher.get` after the position-index query: select a
candidate, derive the part CID from its key, and emit the location claim
plus — when the part CID parses — the relation claim.  No candidate means
an empty claim set.  The result is `Except`-valued because the source may
throw (`ArchiveError`); in the model archival is total, so every branch
returns `ok`. -/
def resolverGet (parseLink : String → Option Cid)
    (decodeB32Digest : String → Option Multihash) (signer : String)
    (content : Cid) (items : List Item) (nowMs : Nat) :
    Except String (List ClaimRec) :=
  match selectItem items with
  | none => .ok []
  | some item =>
    let part := bucketKeyToPartCID parseLink decodeB32Digest item.key
    let location := ["https://" ++ item.bucket ++ ".s3.amazonaws.com/" ++ item.key]
    let expiration := expirationOf nowMs
    .ok ([buildLocationClaim signer content location item.offset item.length (some expiration)]
      ++ (match part with
          | some p =>
            [buildRelationClaim signer content p item.offset item.length (some expiration)]
          | none => []))

/-- `BlockIndexClaimFetcher.get` from the raw query rows: normalize each
`(carpath, offset, length)` row, then derive the claims. -/
def resolverGetRows (parseLink : String → Option Cid)
    (decodeB32Digest : String → Option Multihash) (signer : String)
    (content : Cid) (rows : List (String × Nat × Nat)) (nowMs : Nat) :
    Except String (List ClaimRec) :=
  resolverGet parseLink decodeB32Digest signer content
    (rows.map fun row => normalizeItem row.1 row.2.1 row.2.2) nowMs

/-! ## Helper lemmas -/

theorem claimType_unknown (can : String)
    (h : can ∉ [locationCan, partitionCan, inclusionCan, relationCan, equalsCan]) :
    claimType can = "unknown" := by
  simp only [List.mem_cons, List.not_mem_nil, or_false, not_or] at h
  obtain ⟨h1, h2, h3, h4, h5⟩ := h
  simp [claimType, h1, h2, h3, h4, h5]

theorem decodeClaim_of_extract (bytes : List Nat) (inv : Invocation)
    (h : extractArchive bytes = .ok inv) :
    decodeClaim bytes =
      if (inv.cap.nb.lookup "content").isSome then
        .ok ⟨claimType inv.cap.can, inv.cap.nb⟩
      else .error "invalid claim" := by
  simp [decodeClaim, h]

theorem decodeClaim_error_msg (bytes : List Nat) (e : String)
    (h : decodeClaim bytes = .error e) :
    e = "failed to decode claim" ∨ e = "invalid claim" := by
  cases hx : extractArchive bytes with
  | error e0 =>
    simp [decodeClaim, hx] at h
    exact Or.inl h.symm
  | ok inv =>
    rw [decodeClaim_of_extract bytes inv hx] at h
    cases hl : inv.cap.nb.lookup "content" with
    | some v => simp [hl] at h
    | none =>
      simp [hl] at h
      exact Or.inr h.symm

/-- A block the streaming loop consumes without failing: the hash check
passes and the decode succeeds. -/
def goodB (b : BlockRec) : Prop :=
  verifyBlock b = true ∧ ∃ c, decodeClaim b.bytes = .ok c

theorem readPipe_append_good (pre rest : List BlockRec) (endErr : Option String)
    (h : ∀ x ∈ pre, goodB x) :
    ∃ cs, readPipe (pre ++ rest) endErr =
      (cs ++ (readPipe rest endErr).1, (readPipe rest endErr).2) ∧
      cs.length = pre.length := by
  induction pre with
  | nil => exact ⟨[], by simp⟩
  | cons b pre ih =>
    obtain ⟨hv, c, hc⟩ := h b (List.mem_cons_self b pre)
    obtain ⟨cs, hcs, hlen⟩ := ih fun x hx => h x (List.mem_cons_of_mem b hx)
    refine ⟨c :: cs, ?_, by simp [hlen]⟩
    simp [readPipe, hv, hc, hcs]

theorem readPipe_all_good (blocks : List BlockRec) (endErr : Option String) :
    (∀ b ∈ blocks, goodB b) ∨
    ∃ e, (readPipe blocks endErr).2 = some e ∧ e ≠ eofMsg := by
  induction blocks with
  | nil => exact Or.inl (by simp)
  | cons b rest ih =>
    by_cases hv : verifyBlock b
    · cases hd : decodeClaim b.bytes with
      | ok c =>
        rcases ih with hall | ⟨e, he, hne⟩
        · refine Or.inl ?_
          intro x hx
          rcases List.mem_cons.mp hx with rfl | hx
          · exact ⟨hv, c, hd⟩
          · exact hall x hx
        · refine Or.inr ⟨e, ?_, hne⟩
          simpa [readPipe, hv, hd] using he
      | error e =>
        refine Or.inr ⟨e, by simp [readPipe, hv, hd], ?_⟩
        rcases decodeClaim_error_msg b.bytes e hd with rfl | rfl <;> decide
    · refine Or.inr ⟨hashFailMsg, ?_, by decide⟩
      simp [readPipe, hv]

/-! ## Sample values used by the concrete witnesses -/

/-- A small sample content identifier. -/
def sampleCid : Cid := ⟨1, ⟨[7]⟩⟩

/-- A second sample content identifier (an equivalent addressing of the
same data in the equals scenario). -/
def sampleEqCid : Cid := ⟨2, ⟨[9]⟩⟩

/-- An equals-kind invocation whose named parameters lack the `equals`
content identifier. -/
def invNoEquals : Invocation :=
  ⟨"did:s", "did:s", ⟨equalsCan, "did:s", [("content", .vlink sampleCid)]⟩, none, []⟩

/-- An equals-kind invocation whose named parameters lack the `content`
subject. -/
def invNoContent : Invocation :=
  ⟨"did:s", "did:s", ⟨equalsCan, "did:s", [("equals", .vlink sampleEqCid)]⟩, none, []⟩

/-- An invocation carrying an unrecognized capability discriminator. -/
def invUnknownCan : Invocation :=
  ⟨"did:s", "did:s", ⟨"assert/index", "did:s", [("content", .vlink sampleCid)]⟩, none, []⟩

/-- The `assert/equals` invocation built in the repository's service test
(`should claim equals`): self-issued, named parameters carrying the
subject and the equivalent identifier, no expiration, nothing attached. -/
def equalsInvocation (signer : String) (content equalsCid : Cid) : Invocation :=
  ⟨signer, signer,
    ⟨equalsCan, signer, [("content", .vlink content), ("equals", .vlink equalsCid)]⟩,
    none, []⟩

/-- A sample equals invocation. -/
def sampleEqualsInv : Invocation := equalsInvocation "did:key:z" sampleCid sampleEqCid

/-- A response block whose bytes decode to a claim and whose CID matches
the digest of its bytes. -/
def sampleGoodBlock : BlockRec :=
  ⟨⟨ROOT_CODEC, ⟨sha256model (encArchive sampleEqualsInv)⟩⟩, encArchive sampleEqualsInv⟩

/-- A response block whose hash check passes but whose bytes fail the
claim decode (no `content` member). -/
def sampleBadDecodeBlock : BlockRec :=
  ⟨⟨ROOT_CODEC, ⟨sha256model (encArchive invNoContent)⟩⟩, encArchive invNoContent⟩

/-- A response block whose CID multihash does not match its bytes. -/
def sampleBadHashBlock : BlockRec := ⟨⟨ROOT_CODEC, ⟨[99]⟩⟩, [1, 2]⟩

/-- A content identifier whose binary representation is 36 bytes long
(CAR codec: 1 version byte + 2 codec bytes + 33 digest bytes). -/
def sampleCid36 : Cid := ⟨CAR_CODE, ⟨List.replicate 33 0⟩⟩

/-- A position-index candidate in the current production bucket. -/
def sampleItem : Item := ⟨"us", "carpark-prod-0", "raw/x.car", 200, 40⟩

/-! ## Claim theorems -/

/-- C1: for every derived relation claim, the archive-relative offset
written into the attached single-entry position index equals
`offset - (varintLength(idLen + length) + idLen)` where `idLen` is the
byte length of the subject content identifier; the correction is 1 + idLen
when the varint spans one byte (idLen + length < 128) and 2 + idLen when
it spans two (128 ≤ idLen + length < 16384); in particular for
offset=100, length=50, idLen=36 it equals 100 - (varintLength(86) + 36)
= 63, and for the two-byte case length=128 it equals 62. -/
theorem claim_c1 :
    (∀ (signer : String) (content part : Cid) (offset length : Nat) (exp : Option Nat),
      (extractArchive (buildRelationClaim signer content part offset length exp).bytes).map
          (fun inv => inv.attached) =
        .ok [(encodeIndexCid content (relationCarOffset content offset length),
              encodeIndexBytes content (relationCarOffset content offset length))]) ∧
    (∀ (content : Cid) (offset length : Nat),
      relationCarOffset content offset length =
        (offset : Int) - ((encodingLength ((cidBytes content).length + length) : Int)
          + ((cidBytes content).length : Int))) ∧
    (∀ (content : Cid) (offset length : Nat),
      (cidBytes content).length + length < 128 →
      relationCarOffset content offset length =
        (offset : Int) - (1 + ((cidBytes content).length : Int))) ∧
    (∀ (content : Cid) (offset length : Nat),
      128 ≤ (cidBytes content).length + length →
      (cidBytes content).length + length < 16384 →
      relationCarOffset content offset length =
        (offset : Int) - (2 + ((cidBytes content).length : Int))) ∧
    (∀ content : Cid, (cidBytes content).length = 36 →
      relationCarOffset content 100 50 = 100 - ((encodingLength (36 + 50) : Int) + 36) ∧
      relationCarOffset content 100 50 = 63) ∧
    (∀ content : Cid, (cidBytes content).length = 36 →
      relationCarOffset content 100 128 = 100 - ((encodingLength (36 + 128) : Int) + 36) ∧
      relationCarOffset content 100 128 = 62) := by
  refine ⟨?_, ?_, ?_, ?_, ?_, ?_⟩
  · intro signer content part offset length exp
    simp [buildRelationClaim, buildClaim, extractArchive_enc, Except.map]
  · intro content offset length
    rfl
  · intro content offset length h
    have h1 := encodingLength_one _ h
    simp [relationCarOffset, h1]
  · intro content offset length h1 h2
    have h3 := encodingLength_two _ h1 h2
    simp [relationCarOffset, h3]
  · intro content h36
    have h1 : encodingLength (36 + 50) = 1 := encodingLength_one _ (by norm_num)
    refine ⟨by simp [relationCarOffset, h36], ?_⟩
    simp [relationCarOffset, h36, h1]
  · intro content h36
    have h2 : encodingLength (36 + 128) = 2 := encodingLength_two _ (by norm_num) (by norm_num)
    refine ⟨by simp [relationCarOffset, h36], ?_⟩
    simp [relationCarOffset, h36, h2]

/-- Witness for C1 at concrete inputs: a CAR-codec identifier whose byte
representation is 36 bytes long, with the one-byte varint case
(offset=100, length=50) giving 63 and the two-byte case (length=128)
giving 62. -/
theorem claim_c1_witness :
    (cidBytes sampleCid36).length = 36 ∧
    relationCarOffset sampleCid36 100 50 = 63 ∧
    relationCarOffset sampleCid36 100 128 = 62 :=
  ⟨by decide, (claim_c1.2.2.2.2.1 sampleCid36 (by decide)).2,
    (claim_c1.2.2.2.2.2 sampleCid36 (by decide)).2⟩

/-- C2: `buildClaim` returns the subject's multihash as the claim's
content digest and the archived invocation's own CID as the claim
identifier, and re-decoding the returned bytes reproduces that
identifier; for an equals claim signed and archived this way, extraction
reproduces the capability with its original `equals` field. -/
theorem claim_c2 :
    (∀ (content : Cid) (inv : Invocation),
      (buildClaim content inv).content = content.multihash ∧
      (buildClaim content inv).claim = cidOfInvocation inv ∧
      decodedClaimId (buildClaim content inv).bytes = .ok (buildClaim content inv).claim) ∧
    (∀ (signer : String) (content equalsCid : Cid),
      extractArchive (buildClaim content (equalsInvocation signer content equalsCid)).bytes =
        .ok (equalsInvocation signer content equalsCid) ∧
      (equalsInvocation signer content equalsCid).cap.nb.lookup "equals" =
        some (.vlink equalsCid)) := by
  constructor
  · intro content inv
    refine ⟨rfl, rfl, ?_⟩
    simp [decodedClaimId, buildClaim, extractArchive_enc, Except.map]
  · intro signer content equalsCid
    exact ⟨extractArchive_enc _, rfl⟩

/-- C4: when the position-index query returns zero records, the resolver
returns the empty claim list and no error. -/
theorem claim_c4 (parseLink : String → Option Cid)
    (decodeB32Digest : String → Option Multihash) (signer : String) (content : Cid)
    (nowMs : Nat) :
    resolverGet parseLink decodeB32Digest signer content [] nowMs = .ok [] ∧
    resolverGetRows parseLink decodeB32Digest signer content [] nowMs = .ok [] :=
  ⟨rfl, rfl⟩

/-- C10: every relation claim synthesized by the resolver carries an
empty `children` list and exactly one part entry — the containing archive
identifier with the freshly built single-entry index as its inclusion. -/
theorem claim_c10 (signer : String) (content part : Cid) (offset length : Nat)
    (exp : Option Nat) :
    (buildRelationClaim signer content part offset length exp).value.can = relationCan ∧
    (buildRelationClaim signer content part offset length exp).value.nb.lookup "children" =
      some (.vlinks []) ∧
    (buildRelationClaim signer content part offset length exp).value.nb.lookup "parts" =
      some (.vparts [⟨part,
        some ⟨encodeIndexCid content (relationCarOffset content offset length), none⟩⟩]) :=
  ⟨rfl, rfl, rfl⟩

/-- C3: the location selection is deterministic first-match-wins in the
fixed order current bucket, legacy `dotstorage-prod-1` with `raw` key,
legacy `dotstorage-prod-0` with `raw` key, first candidate; a
current-bucket candidate, whenever present, is always the one selected. -/
theorem claim_c3 :
    (∀ items : List Item, (∃ i ∈ items, i.bucket = "carpark-prod-0") →
      selectItem items = items.find? fun i => i.bucket == "carpark-prod-0") ∧
    (∀ items : List Item, (∀ i ∈ items, i.bucket ≠ "carpark-prod-0") →
      (∃ i ∈ items, i.bucket = "dotstorage-prod-1" ∧ jsStartsWith i.key "raw" = true) →
      selectItem items =
        items.find? fun i => i.bucket == "dotstorage-prod-1" && jsStartsWith i.key "raw") ∧
    (∀ items : List Item, (∀ i ∈ items, i.bucket ≠ "carpark-prod-0") →
      (∀ i ∈ items, ¬(i.bucket = "dotstorage-prod-1" ∧ jsStartsWith i.key "raw" = true)) →
      (∃ i ∈ items, i.bucket = "dotstorage-prod-0" ∧ jsStartsWith i.key "raw" = true) →
      selectItem items =
        items.find? fun i => i.bucket == "dotstorage-prod-0" && jsStartsWith i.key "raw") ∧
    (∀ items : List Item,
      (∀ i ∈ items, i.bucket ≠ "carpark-prod-0" ∧
        ¬(i.bucket = "dotstorage-prod-1" ∧ jsStartsWith i.key "raw" = true) ∧
        ¬(i.bucket = "dotstorage-prod-0" ∧ jsStartsWith i.key "raw" = true)) →
      selectItem items = items.head?) ∧
    (∀ items : List Item, items ≠ [] → (selectItem items).isSome = true) ∧
    (∀ (items : List Item) (j : Item), (∃ i ∈ items, i.bucket = "carpark-prod-0") →
      selectItem items = some j → j.bucket = "carpark-prod-0") := by
  have hfind1 : ∀ items : List Item, (∃ i ∈ items, i.bucket = "carpark-prod-0") →
      ∃ j, items.find? (fun i => i.bucket == "carpark-prod-0") = some j := by
    intro items ⟨i, hi, hb⟩
    have : (items.find? fun i => i.bucket == "carpark-prod-0").isSome := by
      rw [List.find?_isSome]
      exact ⟨i, hi, by simp [hb]⟩
    exact Option.isSome_iff_exists.mp this
  have h1 : ∀ items : List Item, (∃ i ∈ items, i.bucket = "carpark-prod-0") →
      selectItem items = items.find? fun i => i.bucket == "carpark-prod-0" := by
    intro items hex
    obtain ⟨j, hj⟩ := hfind1 items hex
    simp [selectItem, hj]
  refine ⟨h1, ?_, ?_, ?_, ?_, ?_⟩
  · intro items hnone hex
    have hf1 : items.find? (fun i => i.bucket == "carpark-prod-0") = none := by
      rw [List.find?_eq_none]
      intro x hx
      simp [hnone x hx]
    obtain ⟨i, hi, hb, hr⟩ := hex
    have hf2 : ∃ j, items.find?
        (fun i => i.bucket == "dotstorage-prod-1" && jsStartsWith i.key "raw") = some j := by
      have : (items.find?
          fun i => i.bucket == "dotstorage-prod-1" && jsStartsWith i.key "raw").isSome := by
        rw [List.find?_isSome]
        exact ⟨i, hi, by simp [hb, hr]⟩
      exact Option.isSome_iff_exists.mp this
    obtain ⟨j, hj⟩ := hf2
    simp [selectItem, hf1, hj]
  · intro items hnone1 hnone2 hex
    have hf1 : items.find? (fun i => i.bucket == "carpark-prod-0") = none := by
      rw [List.find?_eq_none]
      intro x hx
      simp [hnone1 x hx]
    have hf2 : items.find?
        (fun i => i.bucket == "dotstorage-prod-1" && jsStartsWith i.key "raw") = none := by
      rw [List.find?_eq_none]
      intro x hx
      have := hnone2 x hx
      simp only [not_and] at this
      by_cases hb : x.bucket = "dotstorage-prod-1"
      · simp [hb, this hb]
      · simp [hb]
    obtain ⟨i, hi, hb, hr⟩ := hex
    have hf3 : ∃ j, items.find?
        (fun i => i.bucket == "dotstorage-prod-0" && jsStartsWith i.key "raw") = some j := by
      have : (items.find?
          fun i => i.bucket == "dotstorage-prod-0" && jsStartsWith i.key "raw").isSome := by
        rw [List.find?_isSome]
        exact ⟨i, hi, by simp [hb, hr]⟩
      exact Option.isSome_iff_exists.mp this
    obtain ⟨j, hj⟩ := hf3
    simp [selectItem, hf1, hf2, hj]
  · intro items hall
    have hf1 : items.find? (fun i => i.bucket == "carpark-prod-0") = none := by
      rw [List.find?_eq_none]
      intro x hx
      simp [(hall x hx).1]
    have hf2 : items.find?
        (fun i => i.bucket == "dotstorage-prod-1" && jsStartsWith i.key "raw") = none := by
      rw [List.find?_eq_none]
      intro x hx
      have := (hall x hx).2.1
      simp only [not_and] at this
      by_cases hb : x.bucket = "dotstorage-prod-1"
      · simp [hb, this hb]
      · simp [hb]
    have hf3 : items.find?
        (fun i => i.bucket == "dotstorage-prod-0" && jsStartsWith i.key "raw") = none := by
      rw [List.find?_eq_none]
      intro x hx
      have := (hall x hx).2.2
      simp only [not_and] at this
      by_cases hb : x.bucket = "dotstorage-prod-0"
      · simp [hb, this hb]
      · simp [hb]
    simp [selectItem, hf1, hf2, hf3]
  · intro items hne
    cases items with
    | nil => exact absurd rfl hne
    | cons a rest =>
      simp [selectItem, Option.isSome_or]
  · intro items j hex hsel
    rw [h1 items hex] at hsel
    have := List.find?_some hsel
    simpa using this

/-- Witness for C3 at a concrete candidate list containing both a
current-bucket candidate and a legacy candidate: the current-bucket
candidate is selected. -/
theorem claim_c3_witness :
    selectItem [⟨"us", "dotstorage-prod-1", "raw/y.car", 1, 2⟩, sampleItem] =
      [⟨"us", "dotstorage-prod-1", "raw/y.car", 1, 2⟩, sampleItem].find?
        (fun i => i.bucket == "carpark-prod-0") ∧
    (∀ j, selectItem [⟨"us", "dotstorage-prod-1", "raw/y.car", 1, 2⟩, sampleItem] = some j →
      j.bucket = "carpark-prod-0") :=
  ⟨claim_c3.1 _ ⟨sampleItem, by decide, by decide⟩,
    fun j => claim_c3.2.2.2.2.2 _ j ⟨sampleItem, by decide, by decide⟩⟩

/-- C5: for every selected candidate the resolver returns exactly one
location claim — locations the single https URL built from bucket and
key, range the raw offset and length, expiration one hour from now — and
exactly one relation claim if and only if the key's filename parses to a
CAR part identifier; an unparsable key skips the relation claim without
failing the call. -/
theorem claim_c5 (parseLink : String → Option Cid)
    (decodeB32Digest : String → Option Multihash) (signer : String) (content : Cid)
    (items : List Item) (item : Item) (nowMs : Nat)
    (hsel : selectItem items = some item) :
    ∃ cs, resolverGet parseLink decodeB32Digest signer content items nowMs = .ok cs ∧
      cs.countP (fun c => c.value.can == locationCan) = 1 ∧
      (∃ lc, cs.head? = some lc ∧
        lc.value.can = locationCan ∧
        lc.value.nb =
          [("content", .vlink content),
           ("location", .vstrs ["https://" ++ item.bucket ++ ".s3.amazonaws.com/" ++ item.key]),
           ("range", .vrange item.offset (some item.length))] ∧
        lc.expiration = some (expirationOf nowMs)) ∧
      ((cs.countP (fun c => c.value.can == relationCan) = 1) ↔
        (bucketKeyToPartCID parseLink decodeB32Digest item.key).isSome = true) := by
  cases hp : bucketKeyToPartCID parseLink decodeB32Digest item.key with
  | none =>
    refine ⟨[buildLocationClaim signer content
      ["https://" ++ item.bucket ++ ".s3.amazonaws.com/" ++ item.key]
      item.offset item.length (some (expirationOf nowMs))], ?_, ?_, ?_, ?_⟩
    · simp [resolverGet, hsel, hp]
    · rfl
    · exact ⟨_, rfl, rfl, rfl, rfl⟩
    · have h0 : List.countP (fun c => c.value.can == relationCan)
          [buildLocationClaim signer content
            ["https://" ++ item.bucket ++ ".s3.amazonaws.com/" ++ item.key]
            item.offset item.length (some (expirationOf nowMs))] = 0 := rfl
      simp [hp, h0]
  | some p =>
    refine ⟨[buildLocationClaim signer content
        ["https://" ++ item.bucket ++ ".s3.amazonaws.com/" ++ item.key]
        item.offset item.length (some (expirationOf nowMs)),
      buildRelationClaim signer content p item.offset item.length
        (some (expirationOf nowMs))], ?_, ?_, ?_, ?_⟩
    · simp [resolverGet, hsel, hp]
    · rfl
    · exact ⟨_, rfl, rfl, rfl, rfl⟩
    · simp [hp]
      rfl

/-- Witness for C5 at a concrete current-bucket candidate with
offset=200, length=40 and an unparsable key (no relation claim). -/
theorem claim_c5_witness :
    ∃ cs, resolverGet (fun _ => none) (fun _ => none) "did:s" sampleCid [sampleItem] 0 =
        .ok cs ∧
      cs.countP (fun c => c.value.can == locationCan) = 1 ∧
      (∃ lc, cs.head? = some lc ∧
        lc.value.can = locationCan ∧
        lc.value.nb =
          [("content", .vlink sampleCid),
           ("location", .vstrs ["https://" ++ sampleItem.bucket ++ ".s3.amazonaws.com/"
              ++ sampleItem.key]),
           ("range", .vrange sampleItem.offset (some sampleItem.length))] ∧
        lc.expiration = some (expirationOf 0)) ∧
      ((cs.countP (fun c => c.value.can == relationCan) = 1) ↔
        (bucketKeyToPartCID (fun _ => none) (fun _ => none) sampleItem.key).isSome = true) :=
  claim_c5 (fun _ => none) (fun _ => none) "did:s" sampleCid [sampleItem] sampleItem 0
    (by decide)

/-- C6 counterexample: an archive carrying an equals-kind capability
whose named parameters lack the `equals` content identifier is accepted
by `decode`, not rejected — `decode` only checks for the `content`
member. -/
theorem claim_c6_counterexample :
    invNoEquals.cap.can = equalsCan ∧
    invNoEquals.cap.nb.lookup "equals" = none ∧
    decodeClaim (encArchive invNoEquals) = .ok ⟨equalsCan, [("content", .vlink sampleCid)]⟩ :=
  ⟨rfl, rfl, rfl⟩

/-- C6 amended: `decode` rejects exactly the archives whose capability's
named-parameter object lacks the `content` (subject) member; kind-specific
mandatory fields such as `equals` are not validated. -/
theorem claim_c6_amended :
    (∀ (bytes : List Nat) (inv : Invocation), extractArchive bytes = .ok inv →
      inv.cap.nb.lookup "content" = none →
      decodeClaim bytes = .error "invalid claim") ∧
    (∀ (bytes : List Nat) (inv : Invocation), extractArchive bytes = .ok inv →
      (inv.cap.nb.lookup "content").isSome = true →
      decodeClaim bytes = .ok ⟨claimType inv.cap.can, inv.cap.nb⟩) := by
  constructor
  · intro bytes inv hx hl
    rw [decodeClaim_of_extract bytes inv hx]
    simp [hl]
  · intro bytes inv hx hl
    rw [decodeClaim_of_extract bytes inv hx]
    simp [hl]

/-- Witness for the amended C6: a concrete archive lacking `content` is
rejected, and a concrete archive carrying `content` is accepted. -/
theorem claim_c6_witness :
    decodeClaim (encArchive invNoContent) = .error "invalid claim" ∧
    decodeClaim (encArchive invUnknownCan) =
      .ok ⟨claimType invUnknownCan.cap.can, invUnknownCan.cap.nb⟩ :=
  ⟨claim_c6_amended.1 _ invNoContent rfl rfl,
   claim_c6_amended.2 _ invUnknownCan rfl rfl⟩

/-- C7: an archive that extracts successfully and carries a `content`
member but an unrecognized capability discriminator decodes to a claim of
type `unknown`, with the payload preserved. -/
theorem claim_c7 (bytes : List Nat) (inv : Invocation)
    (hx : extractArchive bytes = .ok inv)
    (hc : (inv.cap.nb.lookup "content").isSome = true)
    (hu : inv.cap.can ∉ [locationCan, partitionCan, inclusionCan, relationCan, equalsCan]) :
    decodeClaim bytes = .ok ⟨"unknown", inv.cap.nb⟩ := by
  rw [decodeClaim_of_extract bytes inv hx]
  simp [hc, claimType_unknown _ hu]

/-- Witness for C7: the `assert/index` discriminator maps to `unknown`. -/
theorem claim_c7_witness :
    decodeClaim (encArchive invUnknownCan) = .ok ⟨"unknown", invUnknownCan.cap.nb⟩ :=
  claim_c7 _ invUnknownCan rfl rfl (by decide)

/-- C8 counterexample: a record that fails decode is not dropped from the
result set — `read` propagates the error even though zero claims have
been produced and no other record exists. -/
theorem claim_c8_counterexample :
    verifyBlock sampleBadDecodeBlock = true ∧
    decodeClaim sampleBadDecodeBlock.bytes = .error "invalid claim" ∧
    readClaims [sampleBadDecodeBlock] none = .error "invalid claim" :=
  ⟨rfl, rfl, rfl⟩

/-- C8 amended: a failing record aborts `read` with its error — records
are never silently dropped; the sole tolerated failure is the stream's
`unexpected end of data` when zero claims have been produced, which
yields the empty list; any error after at least one produced claim, and
any decode failure of a record, is a hard failure. -/
theorem claim_c8_amended :
    (∀ (blocks : List BlockRec) (endErr : Option String) (cs : List ClientClaim)
        (e : String),
      readPipe blocks endErr = (cs, some e) → cs ≠ [] →
      readClaims blocks endErr = .error e) ∧
    (∀ (blocks : List BlockRec) (endErr : Option String),
      readPipe blocks endErr = ([], some eofMsg) → readClaims blocks endErr = .ok []) ∧
    (∀ (blocks : List BlockRec) (endErr : Option String) (cs : List ClientClaim)
        (e : String),
      readPipe blocks endErr = (cs, some e) → e ≠ eofMsg →
      readClaims blocks endErr = .error e) ∧
    (∀ (pre : List BlockRec) (b : BlockRec) (post : List BlockRec)
        (endErr : Option String) (e : String),
      (∀ x ∈ pre, goodB x) → verifyBlock b = true → decodeClaim b.bytes = .error e →
      readClaims (pre ++ b :: post) endErr = .error e) := by
  have key : ∀ (blocks : List BlockRec) (endErr : Option String) (cs : List ClientClaim)
      (e : String), readPipe blocks endErr = (cs, some e) → (cs ≠ [] ∨ e ≠ eofMsg) →
      readClaims blocks endErr = .error e := by
    intro blocks endErr cs e hp hor
    unfold readClaims
    rw [hp]
    rcases hor with hcs | he
    · have hie : cs.isEmpty = false := by
        cases cs with
        | nil => exact absurd rfl hcs
        | cons a l => rfl
      simp [hie]
    · have hbe : (e == eofMsg) = false := by simp [he]
      simp [hbe]
  refine ⟨?_, ?_, ?_, ?_⟩
  · intro blocks endErr cs e hp hcs
    exact key _ _ _ _ hp (Or.inl hcs)
  · intro blocks endErr hp
    unfold readClaims
    rw [hp]
    rfl
  · intro blocks endErr cs e hp he
    exact key _ _ _ _ hp (Or.inr he)
  · intro pre b post endErr e hpre hv hd
    obtain ⟨cs, hcs, _⟩ := readPipe_append_good pre (b :: post) endErr hpre
    have hsub : readPipe (b :: post) endErr = ([], some e) := by
      simp [readPipe, hv, hd]
    rw [hsub] at hcs
    have hne : e ≠ eofMsg := by
      rcases decodeClaim_error_msg _ _ hd with rfl | rfl <;> decide
    exact key _ _ _ _ (by simpa using hcs) (Or.inr hne)

/-- Witness for the amended C8: a record failing decode aborts the read
with its error, and a truncated empty stream yields the empty list. -/
theorem claim_c8_witness :
    readClaims ([] ++ sampleBadDecodeBlock :: []) none = .error "invalid claim" ∧
    readClaims [] (some eofMsg) = .ok [] :=
  ⟨claim_c8_amended.2.2.2 [] sampleBadDecodeBlock [] none "invalid claim"
      (by simp) rfl rfl,
   claim_c8_amended.2.1 [] (some eofMsg) rfl⟩

/-- C9: whenever `read` succeeds, every block of the stream passed the
sha256 hash check, and a block failing the check aborts the read with the
hash verification error so no mismatched record is ever decoded. -/
theorem claim_c9 :
    (∀ (blocks : List BlockRec) (endErr : Option String) (cs : List ClientClaim),
      readClaims blocks endErr = .ok cs → ∀ b ∈ blocks, verifyBlock b = true) ∧
    (∀ (pre : List BlockRec) (b : BlockRec) (post : List BlockRec)
        (endErr : Option String),
      (∀ x ∈ pre, goodB x) → verifyBlock b = false →
      readClaims (pre ++ b :: post) endErr = .error hashFailMsg) := by
  constructor
  · intro blocks endErr cs hok b hb
    rcases readPipe_all_good blocks endErr with hall | ⟨e, he, hne⟩
    · exact (hall b hb).1
    · exfalso
      rcases hp : readPipe blocks endErr with ⟨cs', r⟩
      rw [hp] at he
      have hr : r = some e := he
      unfold readClaims at hok
      rw [hp, hr] at hok
      have hbe : (e == eofMsg) = false := by simp [hne]
      simp [hbe] at hok
  · intro pre b post endErr hpre hv
    obtain ⟨cs, hcs, _⟩ := readPipe_append_good pre (b :: post) endErr hpre
    have hsub : readPipe (b :: post) endErr = ([], some hashFailMsg) := by
      simp [readPipe, hv]
    rw [hsub] at hcs
    unfold readClaims
    rw [show readPipe (pre ++ b :: post) endErr = (cs ++ [], some hashFailMsg) from hcs]
    have hbe : (hashFailMsg == eofMsg) = false := by decide
    simp [hbe]

/-- Witness for C9: a successful read over one well-formed block implies
its hash check passed, and a concrete mismatched block aborts the read. -/
theorem claim_c9_witness :
    (∀ b ∈ [sampleGoodBlock], verifyBlock b = true) ∧
    readClaims ([] ++ sampleBadHashBlock :: []) none = .error hashFailMsg :=
  ⟨claim_c9.1 [sampleGoodBlock] none [⟨equalsCan, sampleEqualsInv.cap.nb⟩] rfl,
   claim_c9.2 [] sampleBadHashBlock [] none (by simp) rfl⟩

end ContentClaims
